import Mathlib

/-!
Verification of `src/evo_monitor.py` (EVO Fund Monitor).

The Python program is shallowly embedded below.  Pure computations
(keyword matching, link resolution, message formatting, digest
construction) become Lean functions; the stateful scan functions become
functions from their inputs (fetched document, extracted items, the
in-memory dedup state and the backing file) to an explicit trace of
side effects (notifications, log lines, resulting state, resulting file,
escaped exception).

External collaborators are modelled at their interface, never stubbed
away where the claims depend on them:
  * `requests.get` is a parameter of type `Except String String`
    (error = the raised exception's message, ok = the response text);
  * BeautifulSoup extraction (`soup.select`, `get_text`, `find("a")`,
    `a.get("href")`) is a parameter producing the extracted items,
    since the HTML parser is outside the repository;
  * the `json` library is modelled at the level of its abstract syntax
    tree (`Json` below): `json.dumps` of the state dict stores the tree,
    `json.loads` recovers it, and a file whose text does not parse is
    the `corrupt` case, on which `json.loads` raises;
  * `urllib.parse.urljoin` is modelled by `urljoin` below, including its
    documented behaviour of returning the base when the second argument
    is `None` or empty.
-/

namespace EvoMonitor

/-! ## Configuration (lines 30-42 of evo_monitor.py) -/

def EVO_NEWS_URL : String := "https://www.evofinancialgroup.com/ejs/news/"

def TDNET_BASE : String := "https://release.tdnet.info"

def KEYWORDS : List String :=
  ["EVO FUND", "Evolution Capital", "第三者割当", "新株予約権", "行使価額", "月間行使状況"]

def START_HOUR : Nat := 8

def END_HOUR : Nat := 17

/-! ## Python's substring test `k in s`

`inStr k s` embeds the Python expression `k in s` on strings: it decides
whether `k` occurs contiguously inside `s`. -/

def isPrefixList : List Char → List Char → Bool
  | [], _ => true
  | _ :: _, [] => false
  | a :: as, b :: bs => a == b && isPrefixList as bs

def containsSub (needle : List Char) : List Char → Bool
  | [] => isPrefixList needle []
  | c :: t => isPrefixList needle (c :: t) || containsSub needle t

def inStr (k s : String) : Bool := containsSub k.data s.data

theorem isPrefixList_iff (n h : List Char) :
    isPrefixList n h = true ↔ ∃ suf, h = n ++ suf := by
  induction n generalizing h with
  | nil =>
    simp only [isPrefixList, List.nil_append, true_iff]
    exact ⟨h, rfl⟩
  | cons a as ih =>
    cases h with
    | nil =>
      simp [isPrefixList]
    | cons b bs =>
      simp only [isPrefixList, Bool.and_eq_true, beq_iff_eq, ih, List.cons_append,
        List.cons.injEq]
      constructor
      · rintro ⟨rfl, suf, rfl⟩
        exact ⟨suf, rfl, rfl⟩
      · rintro ⟨suf, rfl, rfl⟩
        exact ⟨rfl, suf, rfl⟩

theorem containsSub_iff (n h : List Char) :
    containsSub n h = true ↔ ∃ pre suf, h = pre ++ n ++ suf := by
  induction h with
  | nil =>
    simp only [containsSub, isPrefixList_iff]
    constructor
    · rintro ⟨suf, hs⟩
      exact ⟨[], suf, by simpa using hs⟩
    · rintro ⟨pre, suf, hs⟩
      refine ⟨suf, ?_⟩
      rcases List.append_eq_nil.mp hs.symm with ⟨h1, h2⟩
      rcases List.append_eq_nil.mp h1 with ⟨rfl, rfl⟩
      simpa using hs
  | cons c t ih =>
    simp only [containsSub, Bool.or_eq_true, isPrefixList_iff, ih]
    constructor
    · rintro (⟨suf, hs⟩ | ⟨pre, suf, rfl⟩)
      · exact ⟨[], suf, by simpa using hs⟩
      · exact ⟨c :: pre, suf, rfl⟩
    · rintro ⟨pre, suf, hs⟩
      cases pre with
      | nil =>
        left
        exact ⟨suf, by simpa using hs⟩
      | cons p ps =>
        right
        rw [List.cons_append, List.cons_append, List.cons.injEq] at hs
        exact ⟨ps, suf, hs.2⟩

theorem inStr_iff (k s : String) :
    inStr k s = true ↔ ∃ pre suf, s.data = pre ++ k.data ++ suf :=
  containsSub_iff k.data s.data

/-! ## The JSON model and the persisted state

The Python state is the dict
`{"evo_news": [...], "tdnet": [...], "exercise_flags": {...}}`
(lists of string keys per source).  `St` is its typed shape; `Json` is
the abstract syntax tree handed to / received from the `json` library.
-/

inductive Json where
  | str (s : String)
  | arr (elems : List Json)
  | obj (fields : List (String × Json))

structure St where
  evo_news : List String
  tdnet : List String
  exercise_flags : List (String × Json)

/-- The empty default store returned by `load_state` when the file is
missing (line 51). -/
def defaultState : St := ⟨[], [], []⟩

def jsonOfState (st : St) : Json :=
  .obj [("evo_news", .arr (st.evo_news.map .str)),
        ("tdnet", .arr (st.tdnet.map .str)),
        ("exercise_flags", .obj st.exercise_flags)]

/-- Dict field access, as in `state["evo_news"]`. -/
def getField (fields : List (String × Json)) (k : String) : Option Json :=
  match fields with
  | [] => none
  | (k', v) :: rest => if k' = k then some v else getField rest k

def asStrList : List Json → Option (List String)
  | [] => some []
  | .str s :: rest => (asStrList rest).map (fun l => s :: l)
  | _ :: _ => none

/-- Reads a parsed JSON value back as the typed state, the way the
program consumes `load_state`'s result (`state["evo_news"]` a list of
strings, etc.). -/
def stateOfJson (j : Json) : Option St :=
  match j with
  | .obj fields =>
    match getField fields "evo_news", getField fields "tdnet",
          getField fields "exercise_flags" with
    | some (.arr es), some (.arr ts), some (.obj fl) =>
      match asStrList es, asStrList ts with
      | some es', some ts' => some ⟨es', ts', fl⟩
      | _, _ => none
    | _, _, _ => none
  | _ => none

/-- The backing store `.evo_monitor_state.json`: absent, present but not
parseable by `json.loads`, or present holding a parsed value. -/
inductive StoreFile where
  | missing
  | corrupt (raw : String)
  | holds (j : Json)

/-- Embeds `load_state` (lines 48-51).  The file-exists branch returns
`json.loads` of the file text with no exception handler, so an
unparseable file propagates `json.JSONDecodeError`; only a missing file
yields the default store. -/
def load_state (f : StoreFile) : Except String Json :=
  match f with
  | .missing => .ok (jsonOfState defaultState)
  | .corrupt _ => .error "json.decoder.JSONDecodeError"
  | .holds j => .ok j

/-- Embeds `save_state` (lines 53-54).  `ok` says whether the write
system call succeeds; on failure the `OSError` escapes (there is no
handler) and the file keeps its previous contents.  Returns the
resulting file and the escaped exception, if any. -/
def save_state (ok : Bool) (st : St) (prev : StoreFile) :
    StoreFile × Option String :=
  if ok then (.holds (jsonOfState st), none) else (prev, some "OSError")

theorem asStrList_map (xs : List String) :
    asStrList (xs.map Json.str) = some xs := by
  induction xs with
  | nil => rfl
  | cons x rest ih => simp [asStrList, ih]

/-- Decoding inverts encoding: the serialized state reads back with the
identical key lists per source. -/
theorem stateOfJson_jsonOfState (st : St) :
    stateOfJson (jsonOfState st) = some st := by
  simp [jsonOfState, stateOfJson, getField, asStrList_map]

/-! ## Relevance tests

`evoRelevant` embeds line 86, `any(k in title for k in KEYWORDS)`:
Python's `in` is a case-sensitive substring test.  `tdnetRelevant`
embeds line 121, `any(k.lower() in pdf_url.lower() for k in ["evo",
"evolution"])`. -/

def evoRelevant (title : String) : Bool :=
  KEYWORDS.any (fun k => inStr k title)

/-- Models Python's `str.lower()` character by character (ASCII case
folding; the Japanese characters involved have no case). -/
def pyLower (s : String) : String := String.mk (s.data.map Char.toLower)

def tdnetRelevant (pdf_url : String) : Bool :=
  (["evo", "evolution"] : List String).any
    (fun k => inStr (pyLower k) (pyLower pdf_url))

/-- Modelled from the spec (§4.2): the spec's `is_relevant` as written,
"label matches if it contains at least one configured keyword as a
case-insensitive substring".  Stated only to compare against the
scanners' actual tests. -/
def spec_is_relevant_ci (label : String) : Bool :=
  KEYWORDS.any (fun k => inStr (pyLower k) (pyLower label))

/-! ## Link resolution (line 85) -/

/-- One `li` element as the scanner sees it through BeautifulSoup:
`text` is `li.get_text(strip=True)`; `anchorHref` is `none` when
`li.find("a")` is `None`, and otherwise carries `a.get("href")`
(which is itself `None` when the anchor has no href attribute). -/
structure Li where
  text : String
  anchorHref : Option (Option String)

/-- Models `urllib.parse.urljoin` for the shapes this program produces:
`urljoin(base, None)` and `urljoin(base, "")` return the base unchanged
(the library's `if not url: return base` branch); an absolute URL is
returned as is; a relative one is appended to the base's directory. -/
def baseDir (base : String) : String :=
  String.mk ((base.data.reverse.dropWhile (fun c => c ≠ '/')).reverse)

def urljoin (base : String) (url : Option String) : String :=
  match url with
  | none => base
  | some u =>
    if u = "" then base
    else if "http://".isPrefixOf u || "https://".isPrefixOf u then u
    else baseDir base ++ u

/-- Embeds line 85:
`urljoin(EVO_NEWS_URL, li.find("a").get("href")) if li.find("a") else EVO_NEWS_URL`. -/
def resolveLink (li : Li) : String :=
  match li.anchorHref with
  | none => EVO_NEWS_URL
  | some href => urljoin EVO_NEWS_URL href

/-! ## Notification payload (lines 60-70)

`notify` builds the payload content as the Python conditional
expression `msg-newline-url if url else msg` (line 65) and posts it;
`None` and the empty string are both falsy, and the content is sent
whole, with no truncation anywhere.  A post failure is caught by the
bare `except` and logged. -/

def notifyContent (msg : String) (url : Option String) : String :=
  match url with
  | some u => if u = "" then msg else msg ++ "\n" ++ u
  | none => msg

/-! ## The scan functions as side-effect traces -/

structure Note where
  msg : String
  url : Option String

/-- The observable outcome of one scan call: the notifications sent (in
order), the log lines written, the global `state` after the call, the
backing file after the call, and the exception that escaped the call,
if any. -/
structure ScanOut where
  notes : List Note
  logs : List String
  st : St
  file : StoreFile
  exn : Option String

def logScanningEvo : String := "Scanning EVO news page…"

def logEvoFetchError (e : String) : String := "EVO news fetch error: " ++ e

def logScanningTdnet : String := "Scanning TDnet…"

def logTdnetFetchError (e : String) : String := "TDnet list fetch error: " ++ e

/-- The body of the `for li in items` loop of `scan_evo_news`
(lines 83-89), acting on the accumulated (notifications, state). -/
def evoStep (acc : List Note × St) (li : Li) : List Note × St :=
  let title := li.text
  let link := resolveLink li
  if evoRelevant title then
    if link ∈ acc.2.evo_news then acc
    else (acc.1 ++ [⟨"[EVO NEWS] " ++ title, some link⟩],
          { acc.2 with evo_news := acc.2.evo_news ++ [link] })
  else acc

/-- Embeds `scan_evo_news` (lines 74-90).  `fetch` is the outcome of
`requests.get(EVO_NEWS_URL, timeout=15).text`; `extract` stands for
BeautifulSoup's `soup.select("div.news-list li")` walk; `writeOk` says
whether the final `save_state` write succeeds. -/
def scan_evo_news (fetch : Except String String) (extract : String → List Li)
    (writeOk : Bool) (st : St) (f : StoreFile) : ScanOut :=
  match fetch with
  | .error e => ⟨[], [logScanningEvo, logEvoFetchError e], st, f, none⟩
  | .ok html =>
    let p := (extract html).foldl evoStep ([], st)
    let s := save_state writeOk p.2 f
    ⟨p.1, [logScanningEvo], p.2, s.1, s.2⟩

/-! ## TDnet (lines 94-124) -/

def pad2 (n : Nat) : String := if n < 10 then "0" ++ toString n else toString n

def listing_url (y m d : Nat) : String :=
  TDNET_BASE ++ "/old/" ++ toString y ++ pad2 m ++ "/" ++ pad2 d ++ "/index.html"

/-- Embeds `list_today_tdnet_pdfs` (lines 94-109).  `anchors html`
stands for `soup.select("a")`, each element carrying its optional href
attribute; `a.get("href", "")` is the `getD ""`.  Returns the pdf list
and the log lines the function writes. -/
def list_today_tdnet_pdfs (y m d : Nat) (fetch : Except String String)
    (anchors : String → List (Option String)) : List String × List String :=
  match fetch with
  | .error e => ([], [logTdnetFetchError e])
  | .ok html =>
    let hrefs := (anchors html).map (fun h => h.getD "")
    ((hrefs.filter (fun h => h.endsWith ".pdf")).map
      (fun h => urljoin (listing_url y m d) (some h)), [])

/-- The body of the `for pdf_url in ...` loop of `scan_tdnet`
(lines 117-123). -/
def tdnetStep (acc : List Note × St) (pdf_url : String) : List Note × St :=
  if pdf_url ∈ acc.2.tdnet then acc
  else if tdnetRelevant pdf_url then
    (acc.1 ++ [⟨"[TDNET] EVO関連: ", some pdf_url⟩],
     { acc.2 with tdnet := acc.2.tdnet ++ [pdf_url] })
  else acc

/-- Embeds `scan_tdnet` (lines 112-124).  `hour` is `now.hour` in JST;
outside market hours the function returns at once (line 114-115). -/
def scan_tdnet (hour y m d : Nat) (fetch : Except String String)
    (anchors : String → List (Option String)) (writeOk : Bool)
    (st : St) (f : StoreFile) : ScanOut :=
  if START_HOUR ≤ hour ∧ hour < END_HOUR then
    let pl := list_today_tdnet_pdfs y m d fetch anchors
    let p := pl.1.foldl tdnetStep ([], st)
    let s := save_state writeOk p.2 f
    ⟨p.1, logScanningTdnet :: pl.2, p.2, s.1, s.2⟩
  else ⟨[], [], st, f, none⟩

/-- One run executing both scans in sequence, as the scheduler does.
An exception escaping the first scan propagates out of
`schedule.run_pending()` and stops the run before the second scan. -/
def runOnce (evoFetch : Except String String) (extract : String → List Li)
    (hour y m d : Nat) (tdFetch : Except String String)
    (anchors : String → List (Option String)) (writeOk : Bool)
    (st : St) (f : StoreFile) : ScanOut :=
  let o1 := scan_evo_news evoFetch extract writeOk st f
  match o1.exn with
  | some e => ⟨o1.notes, o1.logs, o1.st, o1.file, some e⟩
  | none =>
    let o2 := scan_tdnet hour y m d tdFetch anchors writeOk o1.st o1.file
    ⟨o1.notes ++ o2.notes, o1.logs ++ o2.logs, o2.st, o2.file, o2.exn⟩

/-! ## The dedup primitives the scanners use (lines 87-89, 118, 123) -/

def isNewEvo (st : St) (k : String) : Bool := decide (k ∉ st.evo_news)

def markSeenEvo (st : St) (k : String) : St :=
  { st with evo_news := st.evo_news ++ [k] }

def isNewTdnet (st : St) (k : String) : Bool := decide (k ∉ st.tdnet)

def markSeenTdnet (st : St) (k : String) : St :=
  { st with tdnet := st.tdnet ++ [k] }

/-- One scheduled scan invocation with its external inputs. -/
inductive RunStep where
  | evo (fetch : Except String String) (extract : String → List Li) (writeOk : Bool)
  | td (hour y m d : Nat) (fetch : Except String String)
      (anchors : String → List (Option String)) (writeOk : Bool)

def applyStep (s : RunStep) (st : St) (f : StoreFile) : St × StoreFile :=
  match s with
  | .evo fe ex w => let o := scan_evo_news fe ex w st f; (o.st, o.file)
  | .td h y m d fe an w => let o := scan_tdnet h y m d fe an w st f; (o.st, o.file)

def runSteps : List RunStep → St → StoreFile → St × StoreFile
  | [], st, f => (st, f)
  | s :: rest, st, f =>
    let p := applyStep s st f
    runSteps rest p.1 p.2

/-! ## Digest builder

Modelled from the spec: `src/evo_monitor.py` contains no digest builder
(its notifications are all immediate), so §4.6's `build(alerts)` is
modelled from the spec's words: empty input yields the empty string;
otherwise a title line with the run date, one section per non-empty
category in the fixed configured category order, each listing the
alerts' labels and links, and a trailing summary line with the
per-category counts. -/

structure Alert where
  category : String
  label : String
  link : String
deriving DecidableEq

/-- Modelled from the spec: the groups of the digest, one per non-empty
category, in the fixed configured order `cats`. -/
def digestGroups (cats : List String) (alerts : List Alert) :
    List (String × List Alert) :=
  (cats.map (fun c => (c, alerts.filter (fun a => a.category == c)))).filter
    (fun g => !g.2.isEmpty)

def renderAlertLine (a : Alert) : String :=
  "- " ++ a.label ++ " " ++ a.link ++ "\n"

def renderSection (g : String × List Alert) : String :=
  "## " ++ g.1 ++ "\n" ++ String.join (g.2.map renderAlertLine)

def renderCount (g : String × List Alert) : String :=
  g.1 ++ "=" ++ toString g.2.length

def summaryLine (gs : List (String × List Alert)) : String :=
  "Summary: " ++ String.intercalate ", " (gs.map renderCount)

/-- Modelled from the spec: `build(alerts)` of §4.6. -/
def build_digest (date : String) (cats : List String) (alerts : List Alert) :
    String :=
  if alerts.isEmpty then ""
  else
    "# Digest " ++ date ++ "\n" ++
      String.join ((digestGroups cats alerts).map renderSection) ++
      summaryLine (digestGroups cats alerts)

/-- Lookup of a category's group among the digest's groups (ordinary
association-list access, the way the summary is read back). -/
def groupLookup (gs : List (String × List Alert)) (c : String) :
    Option (List Alert) :=
  match gs with
  | [] => none
  | (k, g) :: rest => if k = c then some g else groupLookup rest c

/-- The count the trailing summary line shows for category `c` (0 when
`c` has no section). -/
def summaryCount (cats : List String) (alerts : List Alert) (c : String) : Nat :=
  match groupLookup (digestGroups cats alerts) c with
  | some g => g.length
  | none => 0

theorem digestGroups_cons (c' : String) (cs : List String)
    (alerts : List Alert) :
    digestGroups (c' :: cs) alerts =
      if alerts.filter (fun a => a.category == c') = [] then
        digestGroups cs alerts
      else
        (c', alerts.filter (fun a => a.category == c')) ::
          digestGroups cs alerts := by
  by_cases hF : alerts.filter (fun a => a.category == c') = []
  · simp [digestGroups, List.filter_cons, hF]
  · simp only [digestGroups, List.map_cons, List.filter_cons]
    rw [if_neg hF]
    cases hx : alerts.filter (fun a => a.category == c') with
    | nil => exact absurd hx hF
    | cons b bs => simp [hx]

theorem groupLookup_digestGroups (cats : List String) (alerts : List Alert)
    (c : String) :
    groupLookup (digestGroups cats alerts) c =
      if c ∈ cats ∧ alerts.filter (fun a => a.category == c) ≠ [] then
        some (alerts.filter (fun a => a.category == c))
      else none := by
  induction cats with
  | nil => simp [digestGroups, groupLookup]
  | cons c' cs ih =>
    rw [digestGroups_cons]
    by_cases hF : alerts.filter (fun a => a.category == c') = []
    · rw [if_pos hF, ih]
      by_cases hc : c' = c
      · subst hc
        rw [if_neg, if_neg]
        · rintro ⟨_, hne⟩
          exact hne hF
        · rintro ⟨_, hne⟩
          exact hne hF
      · have hmem : (c ∈ c' :: cs ∧ alerts.filter (fun a => a.category == c) ≠ [])
            ↔ (c ∈ cs ∧ alerts.filter (fun a => a.category == c) ≠ []) := by
          simp only [List.mem_cons]
          constructor
          · rintro ⟨h1 | h2, hne⟩
            · exact absurd h1.symm hc
            · exact ⟨h2, hne⟩
          · rintro ⟨h2, hne⟩
            exact ⟨Or.inr h2, hne⟩
        rw [if_congr hmem rfl rfl]
    · rw [if_neg hF]
      simp only [groupLookup]
      by_cases hc : c' = c
      · subst hc
        rw [if_pos rfl, if_pos ⟨List.mem_cons_self _ _, hF⟩]
      · rw [if_neg hc, ih]
        have hmem : (c ∈ c' :: cs ∧ alerts.filter (fun a => a.category == c) ≠ [])
            ↔ (c ∈ cs ∧ alerts.filter (fun a => a.category == c) ≠ []) := by
          simp only [List.mem_cons]
          constructor
          · rintro ⟨h1 | h2, hne⟩
            · exact absurd h1.symm hc
            · exact ⟨h2, hne⟩
          · rintro ⟨h2, hne⟩
            exact ⟨Or.inr h2, hne⟩
        rw [if_congr hmem rfl rfl]

/-- The summary count of every configured category equals that
category's true cardinality among the input alerts. -/
theorem summaryCount_eq_card (cats : List String) (alerts : List Alert)
    (c : String) (hc : c ∈ cats) :
    summaryCount cats alerts c =
      (alerts.filter (fun a => a.category == c)).length := by
  rw [summaryCount, groupLookup_digestGroups]
  by_cases hF : alerts.filter (fun a => a.category == c) = []
  · rw [if_neg (by simp [hF])]
    simp [hF]
  · rw [if_pos ⟨hc, hF⟩]

/-- The digest depends only on the per-category families and emptiness:
grouping follows the fixed configured category order, not alert-arrival
order. -/
theorem build_digest_stable (d : String) (cats : List String)
    (as bs : List Alert)
    (hfil : ∀ c ∈ cats, as.filter (fun a => a.category == c) =
      bs.filter (fun a => a.category == c))
    (hemp : as = [] ↔ bs = []) :
    build_digest d cats as = build_digest d cats bs := by
  have hg : digestGroups cats as = digestGroups cats bs := by
    induction cats with
    | nil => rfl
    | cons c' cs ih =>
      rw [digestGroups_cons, digestGroups_cons, hfil c' (List.mem_cons_self _ _),
        ih (fun c hc => hfil c (List.mem_cons_of_mem _ hc))]
  by_cases ha : as = []
  · have hb := hemp.mp ha
    subst ha
    subst hb
    rfl
  · have hb : bs ≠ [] := fun h => ha (hemp.mpr h)
    have ha' : as.isEmpty = false := by
      cases as with
      | nil => exact absurd rfl ha
      | cons x xs => rfl
    have hb' : bs.isEmpty = false := by
      cases bs with
      | nil => exact absurd rfl hb
      | cons x xs => rfl
    rw [build_digest, build_digest, if_neg (by simp [ha']),
      if_neg (by simp [hb']), hg]

/-! ## Append-only behaviour of the scan loops -/

theorem evoStep_state (acc : List Note × St) (li : Li) :
    (evoStep acc li).2 = acc.2 ∨
      (evoStep acc li).2 =
        { acc.2 with evo_news := acc.2.evo_news ++ [resolveLink li] } := by
  simp only [evoStep]
  cases h1 : evoRelevant li.text with
  | false =>
    left
    simp
  | true =>
    by_cases h2 : resolveLink li ∈ acc.2.evo_news
    · left
      simp [h2]
    · right
      simp [h2]

theorem foldl_evoStep_state (items : List Li) (acc : List Note × St) :
    ∃ e, (items.foldl evoStep acc).2.evo_news = acc.2.evo_news ++ e
      ∧ (items.foldl evoStep acc).2.tdnet = acc.2.tdnet
      ∧ (items.foldl evoStep acc).2.exercise_flags = acc.2.exercise_flags := by
  induction items generalizing acc with
  | nil => exact ⟨[], by simp, rfl, rfl⟩
  | cons li rest ih =>
    rw [List.foldl_cons]
    obtain ⟨e, he, ht, hf⟩ := ih (evoStep acc li)
    rcases evoStep_state acc li with h | h
    · exact ⟨e, by rw [he, h], by rw [ht, h], by rw [hf, h]⟩
    · refine ⟨resolveLink li :: e, ?_, ?_, ?_⟩
      · rw [he, h]
        simp
      · rw [ht, h]
      · rw [hf, h]

theorem tdnetStep_state (acc : List Note × St) (u : String) :
    (tdnetStep acc u).2 = acc.2 ∨
      (tdnetStep acc u).2 = { acc.2 with tdnet := acc.2.tdnet ++ [u] } := by
  simp only [tdnetStep]
  by_cases h1 : u ∈ acc.2.tdnet
  · left
    simp [h1]
  · cases h2 : tdnetRelevant u with
    | false =>
      left
      simp [h1, h2]
    | true =>
      right
      simp [h1, h2]

theorem foldl_tdnetStep_state (urls : List String) (acc : List Note × St) :
    ∃ e, (urls.foldl tdnetStep acc).2.tdnet = acc.2.tdnet ++ e
      ∧ (urls.foldl tdnetStep acc).2.evo_news = acc.2.evo_news
      ∧ (urls.foldl tdnetStep acc).2.exercise_flags = acc.2.exercise_flags := by
  induction urls generalizing acc with
  | nil => exact ⟨[], by simp, rfl, rfl⟩
  | cons u rest ih =>
    rw [List.foldl_cons]
    obtain ⟨e, ht, he, hf⟩ := ih (tdnetStep acc u)
    rcases tdnetStep_state acc u with h | h
    · exact ⟨e, by rw [ht, h], by rw [he, h], by rw [hf, h]⟩
    · refine ⟨u :: e, ?_, ?_, ?_⟩
      · rw [ht, h]
        simp
      · rw [he, h]
      · rw [hf, h]

theorem scan_evo_news_state (fe : Except String String)
    (ex : String → List Li) (w : Bool) (st : St) (f : StoreFile) :
    ∃ e, (scan_evo_news fe ex w st f).st.evo_news = st.evo_news ++ e
      ∧ (scan_evo_news fe ex w st f).st.tdnet = st.tdnet := by
  cases fe with
  | error e => exact ⟨[], by simp [scan_evo_news], rfl⟩
  | ok html =>
    obtain ⟨e, he, ht, hf⟩ := foldl_evoStep_state (ex html) ([], st)
    exact ⟨e, he, ht⟩

theorem scan_tdnet_state (hour y m d : Nat) (fe : Except String String)
    (an : String → List (Option String)) (w : Bool) (st : St) (f : StoreFile) :
    ∃ e, (scan_tdnet hour y m d fe an w st f).st.tdnet = st.tdnet ++ e
      ∧ (scan_tdnet hour y m d fe an w st f).st.evo_news = st.evo_news := by
  unfold scan_tdnet
  by_cases hh : START_HOUR ≤ hour ∧ hour < END_HOUR
  · rw [if_pos hh]
    obtain ⟨e, ht, he, hf⟩ :=
      foldl_tdnetStep_state (list_today_tdnet_pdfs y m d fe an).1 ([], st)
    exact ⟨e, ht, he⟩
  · rw [if_neg hh]
    exact ⟨[], by simp, rfl⟩

theorem applyStep_state (s : RunStep) (st : St) (f : StoreFile) :
    (∃ e, (applyStep s st f).1.evo_news = st.evo_news ++ e)
      ∧ (∃ e, (applyStep s st f).1.tdnet = st.tdnet ++ e) := by
  cases s with
  | evo fe ex w =>
    obtain ⟨e, he, ht⟩ := scan_evo_news_state fe ex w st f
    exact ⟨⟨e, he⟩, ⟨[], by rw [List.append_nil]; exact ht⟩⟩
  | td h y m d fe an w =>
    obtain ⟨e, ht, he⟩ := scan_tdnet_state h y m d fe an w st f
    exact ⟨⟨[], by rw [List.append_nil]; exact he⟩, ⟨e, ht⟩⟩

theorem runSteps_state (steps : List RunStep) (st : St) (f : StoreFile) :
    (∃ e, (runSteps steps st f).1.evo_news = st.evo_news ++ e)
      ∧ (∃ e, (runSteps steps st f).1.tdnet = st.tdnet ++ e) := by
  induction steps generalizing st f with
  | nil =>
    exact ⟨⟨[], by rw [List.append_nil]; rfl⟩, ⟨[], by rw [List.append_nil]; rfl⟩⟩
  | cons s rest ih =>
    simp only [runSteps]
    obtain ⟨⟨e1, he1⟩, ⟨e2, he2⟩⟩ := applyStep_state s st f
    obtain ⟨⟨g1, hg1⟩, ⟨g2, hg2⟩⟩ := ih (applyStep s st f).1 (applyStep s st f).2
    exact ⟨⟨e1 ++ g1, by rw [hg1, he1, List.append_assoc]⟩,
           ⟨e2 ++ g2, by rw [hg2, he2, List.append_assoc]⟩⟩

theorem isNewEvo_eq_false_of_mem {st : St} {k : String}
    (h : k ∈ st.evo_news) : isNewEvo st k = false := by
  simp [isNewEvo, h]

theorem isNewTdnet_eq_false_of_mem {st : St} {k : String}
    (h : k ∈ st.tdnet) : isNewTdnet st k = false := by
  simp [isNewTdnet, h]

/-! ## Concrete inputs used by the closed theorems -/

def emptyLabel : String := ""

def cexLabel : String := "evo fund"

def cexTitleA : String := "EVO FUND A"

def cexTitleB : String := "EVO FUND B"

def noHtml : String := ""

def corruptText : String := "not json"

def longMsg : String := String.mk (List.replicate 2500 'X')

def newsCat : String := "news"

def discCat : String := "disclosure"

def sampleCats : List String := [newsCat, discCat]

def sampleDate : String := "2025-07-14"

def sampleAlertA : Alert := ⟨newsCat, "第三者割当のお知らせ", "https://x/1"⟩

def sampleAlertB : Alert := ⟨discCat, "EVO FUND notice", "https://x/2"⟩

/-! ## The claims -/

/-- C1 counterexample: the claim asserts the scanners' relevance test is
the case-insensitive configured-keyword substring test.  It is not:
`scan_evo_news` (line 86) matches case-sensitively, so the label
"evo fund" — which contains the configured keyword "EVO FUND" as a
case-insensitive substring — is rejected by the code's test. -/
theorem relevance_not_case_insensitive_cex :
    "EVO FUND" ∈ KEYWORDS
      ∧ (∃ pre suf,
          (pyLower cexLabel).data = pre ++ (pyLower "EVO FUND").data ++ suf)
      ∧ spec_is_relevant_ci cexLabel = true
      ∧ evoRelevant cexLabel = false := by
  exact ⟨by decide, ⟨[], [], by decide⟩, by decide, by decide⟩

/-- C1 (amended): `scan_evo_news`'s relevance test matches exactly when
some configured keyword occurs in the label as a case-SENSITIVE
substring, and rejects the empty label; `scan_tdnet`'s test lowercases
both sides but matches only the hardcoded tokens "evo" / "evolution",
not the configured keyword list. -/
theorem relevance_tests_characterized :
    (∀ l : String, evoRelevant l = true ↔
        ∃ k ∈ KEYWORDS, ∃ pre suf, l.data = pre ++ k.data ++ suf)
      ∧ evoRelevant emptyLabel = false
      ∧ (∀ u : String, tdnetRelevant u = true ↔
          ((∃ pre suf,
            (pyLower u).data = pre ++ (pyLower "evo").data ++ suf)
            ∨ (∃ pre suf,
              (pyLower u).data = pre ++ (pyLower "evolution").data ++ suf))) := by
  refine ⟨?_, by decide, ?_⟩
  · intro l
    simp [evoRelevant, List.any_eq_true, inStr_iff]
  · intro u
    simp [tdnetRelevant, List.any_eq_true, inStr_iff]

/-- C2: once a key is appended to a source's seen list, the membership
is-new check on that list is false from then on: immediately, after any
further sequence of scans with arbitrary inputs, and in the state
decoded back from a successful `save_state` / `load_state` round trip.
Stated for both per-source lists. -/
theorem mark_seen_suppresses_forever :
    ∀ (st : St) (k : String) (steps : List RunStep) (f : StoreFile),
      isNewEvo (markSeenEvo st k) k = false
    ∧ isNewEvo (runSteps steps (markSeenEvo st k) f).1 k = false
    ∧ (save_state true (markSeenEvo st k) f).2 = none
    ∧ load_state (save_state true (markSeenEvo st k) f).1 =
        .ok (jsonOfState (markSeenEvo st k))
    ∧ (∃ st', stateOfJson (jsonOfState (markSeenEvo st k)) = some st'
        ∧ isNewEvo st' k = false)
    ∧ isNewTdnet (markSeenTdnet st k) k = false
    ∧ isNewTdnet (runSteps steps (markSeenTdnet st k) f).1 k = false
    ∧ (∃ st', stateOfJson (jsonOfState (markSeenTdnet st k)) = some st'
        ∧ isNewTdnet st' k = false) := by
  intro st k steps f
  have hmE : k ∈ (markSeenEvo st k).evo_news := by simp [markSeenEvo]
  have hmT : k ∈ (markSeenTdnet st k).tdnet := by simp [markSeenTdnet]
  obtain ⟨⟨e1, he1⟩, -⟩ := runSteps_state steps (markSeenEvo st k) f
  obtain ⟨-, ⟨e2, he2⟩⟩ := runSteps_state steps (markSeenTdnet st k) f
  refine ⟨isNewEvo_eq_false_of_mem hmE, ?_, rfl, rfl, ?_,
    isNewTdnet_eq_false_of_mem hmT, ?_, ?_⟩
  · exact isNewEvo_eq_false_of_mem (by rw [he1]; exact List.mem_append_left _ hmE)
  · exact ⟨markSeenEvo st k, stateOfJson_jsonOfState _,
      isNewEvo_eq_false_of_mem hmE⟩
  · exact isNewTdnet_eq_false_of_mem (by rw [he2]; exact List.mem_append_left _ hmT)
  · exact ⟨markSeenTdnet st k, stateOfJson_jsonOfState _,
      isNewTdnet_eq_false_of_mem hmT⟩

/-- C3 counterexample: the claim says an unresolvable candidate is kept
with an empty-string link and a composite non-colliding dedup key.  In
the code (line 85) its link — which is also its dedup key — is the
source's base URL, so two distinct unresolvable candidates collide and
only the first alerts. -/
theorem unresolvable_link_cex :
    resolveLink ⟨cexTitleA, none⟩ ≠ ""
      ∧ resolveLink ⟨cexTitleA, none⟩ = EVO_NEWS_URL
      ∧ resolveLink ⟨cexTitleA, none⟩ = resolveLink ⟨cexTitleB, none⟩
      ∧ (scan_evo_news (.ok noHtml)
          (fun _ => [⟨cexTitleA, none⟩, ⟨cexTitleB, none⟩]) true
          defaultState .missing).notes =
        [⟨"[EVO NEWS] " ++ cexTitleA, some EVO_NEWS_URL⟩] := by
  exact ⟨by decide, rfl, rfl, rfl⟩

/-- C3 (amended): an extracted candidate with no anchor element is kept,
but its link — and hence its dedup key — is the source's base URL
`EVO_NEWS_URL`, never an empty string and never a composite of source
and label; all unresolvable candidates therefore share one dedup key,
and of two distinct relevant unresolvable candidates only the first
produces an alert. -/
theorem unresolvable_link_base_url :
    ∀ (t t' h : String) (f : StoreFile),
      resolveLink ⟨t, none⟩ = EVO_NEWS_URL
    ∧ resolveLink ⟨t, none⟩ = resolveLink ⟨t', none⟩
    ∧ (scan_evo_news (.ok h)
        (fun _ => [⟨cexTitleA, none⟩, ⟨cexTitleB, none⟩]) true
        defaultState f).notes.length = 1 := by
  intro t t' h f
  exact ⟨rfl, rfl, rfl⟩

/-- C4 counterexample: the claim says a corrupt (unparseable) state file
makes `load_state` return the empty default store without raising.  The
code only handles the missing-file case; `json.loads` of a corrupt file
raises and `load_state` has no handler, so the error propagates. -/
theorem load_state_corrupt_raises_cex :
    load_state (.corrupt corruptText) = .error "json.decoder.JSONDecodeError"
      ∧ load_state (.corrupt corruptText) ≠ .ok (jsonOfState defaultState) := by
  refine ⟨rfl, ?_⟩
  intro h
  exact Except.noConfusion h

/-- C4 (amended): `load_state` returns the empty default store exactly
when the file is missing; an existing file that parses is returned as
parsed, and a corrupt file makes `load_state` raise the decode error
rather than fall back to the default. -/
theorem load_state_missing_default_corrupt_raises :
    load_state .missing = .ok (jsonOfState defaultState)
      ∧ stateOfJson (jsonOfState defaultState) = some defaultState
      ∧ (∀ raw : String,
          load_state (.corrupt raw) = .error "json.decoder.JSONDecodeError")
      ∧ (∀ j : Json, load_state (.holds j) = .ok j) := by
  exact ⟨rfl, stateOfJson_jsonOfState _, fun _ => rfl, fun _ => rfl⟩

/-- C5 counterexample: the claim says a failed `save_state` is logged
and not raised out of the scan.  Concretely, with the write failing the
OSError escapes `scan_evo_news`, and the log holds only the scanning
banner — no failure entry; the notification had already been dispatched
before the save. -/
theorem save_failure_unlogged_cex :
    (scan_evo_news (.ok noHtml) (fun _ => [⟨cexTitleA, none⟩]) false
        defaultState .missing).exn = some "OSError"
      ∧ (scan_evo_news (.ok noHtml) (fun _ => [⟨cexTitleA, none⟩]) false
          defaultState .missing).logs = [logScanningEvo]
      ∧ (scan_evo_news (.ok noHtml) (fun _ => [⟨cexTitleA, none⟩]) false
          defaultState .missing).notes =
          [⟨"[EVO NEWS] " ++ cexTitleA, some EVO_NEWS_URL⟩] := by
  exact ⟨rfl, rfl, rfl⟩

/-- C5 (amended): when the final `save_state` write fails, the OSError
escapes the scan and nothing is logged about it; but every notification
of the run was already dispatched before `save_state` — the failing run
notifies exactly as the successful one — and the file keeps its previous
contents. -/
theorem save_failure_propagates_after_notify :
    ∀ (html : String) (extract : String → List Li) (st : St) (f : StoreFile)
      (y m d : Nat) (tdFetch : Except String String)
      (anchors : String → List (Option String)),
      (scan_evo_news (.ok html) extract false st f).exn = some "OSError"
    ∧ (scan_evo_news (.ok html) extract false st f).notes =
        (scan_evo_news (.ok html) extract true st f).notes
    ∧ (scan_evo_news (.ok html) extract false st f).logs =
        (scan_evo_news (.ok html) extract true st f).logs
    ∧ (scan_evo_news (.ok html) extract false st f).file = f
    ∧ (scan_tdnet 10 y m d tdFetch anchors false st f).exn = some "OSError"
    ∧ (scan_tdnet 10 y m d tdFetch anchors false st f).notes =
        (scan_tdnet 10 y m d tdFetch anchors true st f).notes := by
  intro html extract st f y m d tdFetch anchors
  exact ⟨rfl, rfl, rfl, rfl, rfl, rfl⟩

/-- C6 counterexample: the claim says an over-length notification is
hard-truncated at the transport size limit (1900-2000 characters).  The
code never truncates: a 2500-character message is delivered whole, at
2500 characters. -/
theorem notify_no_truncation_cex :
    notifyContent longMsg none = longMsg
      ∧ (notifyContent longMsg none).length = 2500
      ∧ 2000 < (notifyContent longMsg none).length := by
  refine ⟨rfl, ?_, ?_⟩
  · show (List.replicate 2500 'X').length = 2500
    rw [List.length_replicate]
  · show 2000 < (List.replicate 2500 'X').length
    rw [List.length_replicate]
    exact Nat.lt_of_sub_eq_succ rfl

/-- C6 (amended): `notify` applies no truncation at any size: the
delivered content is the whole message — plus a newline and the URL when
one is given — so its length is the full input length instead of being
capped at a limit. -/
theorem notify_content_untruncated :
    ∀ (msg u : String),
      notifyContent msg none = msg
    ∧ (notifyContent msg (some u)).length =
        if u = "" then msg.length else msg.length + 1 + u.length := by
  intro msg u
  refine ⟨rfl, ?_⟩
  by_cases hu : u = ""
  · rw [if_pos hu]
    show (if u = "" then msg else msg ++ "\n" ++ u).length = msg.length
    rw [if_pos hu]
  · rw [if_neg hu]
    show (if u = "" then msg else msg ++ "\n" ++ u).length =
      msg.length + 1 + u.length
    rw [if_neg hu, String.length_append, String.length_append]
    rfl

/-- C7: the digest builder (modelled from the spec, absent from src)
returns the empty string on no alerts; on non-empty input it emits the
date title, the sections in the fixed configured category order, and the
trailing summary whose per-category counts equal the true per-category
cardinalities of the input; the output is stable under any reordering of
the input that preserves the per-category families. -/
theorem build_digest_empty_and_counts :
    (∀ (d : String) (cats : List String), build_digest d cats [] = "")
      ∧ (∀ (cats : List String) (alerts : List Alert) (c : String), c ∈ cats →
          summaryCount cats alerts c =
            (alerts.filter (fun a => a.category == c)).length)
      ∧ (∀ (d : String) (cats : List String) (alerts : List Alert),
          alerts ≠ [] →
          build_digest d cats alerts =
            "# Digest " ++ d ++ "\n" ++
              String.join ((digestGroups cats alerts).map renderSection) ++
              summaryLine (digestGroups cats alerts))
      ∧ (∀ (d : String) (cats : List String) (as bs : List Alert),
          (∀ c ∈ cats, as.filter (fun a => a.category == c) =
            bs.filter (fun a => a.category == c)) →
          (as = [] ↔ bs = []) →
          build_digest d cats as = build_digest d cats bs) := by
  refine ⟨fun d cats => rfl, summaryCount_eq_card, ?_, build_digest_stable⟩
  intro d cats alerts hne
  have hne' : alerts.isEmpty = false := by
    cases alerts with
    | nil => exact absurd rfl hne
    | cons x xs => rfl
  rw [build_digest, if_neg (by simp [hne'])]

/-- C7 witness: the digest theorem applied at a concrete two-category
run. -/
theorem build_digest_empty_and_counts_witness :
    build_digest sampleDate sampleCats [] = ""
      ∧ summaryCount sampleCats [sampleAlertA, sampleAlertB] newsCat =
          ([sampleAlertA, sampleAlertB].filter
            (fun a => a.category == newsCat)).length
      ∧ build_digest sampleDate sampleCats [sampleAlertA, sampleAlertB] =
          build_digest sampleDate sampleCats [sampleAlertB, sampleAlertA] := by
  exact ⟨build_digest_empty_and_counts.1 sampleDate sampleCats,
    build_digest_empty_and_counts.2.1 sampleCats _ newsCat (by decide),
    build_digest_empty_and_counts.2.2.2 sampleDate sampleCats _ _
      (by decide) (by decide)⟩

/-- C8: a failed fetch is confined to its source's scan: it is logged,
yields zero candidates and zero notifications, leaves the state and the
file untouched, raises nothing, and the other source's scan in the same
run proceeds exactly as it would alone. -/
theorem fetch_failure_isolated :
    ∀ (e : String) (extract : String → List Li) (writeOk : Bool) (st : St)
      (f : StoreFile) (hour y m d : Nat) (tdFetch : Except String String)
      (anchors : String → List (Option String)),
      scan_evo_news (.error e) extract writeOk st f =
        ⟨[], [logScanningEvo, logEvoFetchError e], st, f, none⟩
    ∧ list_today_tdnet_pdfs y m d (.error e) anchors =
        ([], [logTdnetFetchError e])
    ∧ scan_tdnet 10 y m d (.error e) anchors true st f =
        ⟨[], [logScanningTdnet, logTdnetFetchError e], st,
          .holds (jsonOfState st), none⟩
    ∧ runOnce (.error e) extract hour y m d tdFetch anchors writeOk st f =
        ⟨(scan_tdnet hour y m d tdFetch anchors writeOk st f).notes,
          [logScanningEvo, logEvoFetchError e] ++
            (scan_tdnet hour y m d tdFetch anchors writeOk st f).logs,
          (scan_tdnet hour y m d tdFetch anchors writeOk st f).st,
          (scan_tdnet hour y m d tdFetch anchors writeOk st f).file,
          (scan_tdnet hour y m d tdFetch anchors writeOk st f).exn⟩ := by
  intro e extract writeOk st f hour y m d tdFetch anchors
  exact ⟨rfl, rfl, rfl, rfl⟩

/-- C9: persisting any dedup store (empty or not) succeeds with no
error, and loading it back yields the same parsed value, which decodes
to a store with the identical key lists per source. -/
theorem dedup_store_round_trip :
    ∀ (st : St) (f : StoreFile),
      (save_state true st f).2 = none
    ∧ load_state (save_state true st f).1 = .ok (jsonOfState st)
    ∧ stateOfJson (jsonOfState st) = some st := by
  intro st f
  exact ⟨rfl, rfl, stateOfJson_jsonOfState st⟩

/-- C10: each scan only appends to the per-source seen-key lists: after
one scan step, and after any sequence of scan steps with arbitrary
inputs, each per-source list equals the original list followed by some
suffix — so the seen-key set only grows and no key is ever removed or
replaced. -/
theorem seen_keys_only_grow :
    ∀ (s : RunStep) (steps : List RunStep) (st : St) (f : StoreFile),
      (∃ e, (applyStep s st f).1.evo_news = st.evo_news ++ e)
    ∧ (∃ e, (applyStep s st f).1.tdnet = st.tdnet ++ e)
    ∧ (∃ e, (runSteps steps st f).1.evo_news = st.evo_news ++ e)
    ∧ (∃ e, (runSteps steps st f).1.tdnet = st.tdnet ++ e) := by
  intro s steps st f
  obtain ⟨h1, h2⟩ := applyStep_state s st f
  obtain ⟨h3, h4⟩ := runSteps_state steps st f
  exact ⟨h1, h2, h3, h4⟩

end EvoMonitor
